import Mathlib

/-!
Verification development for `instigator.go`, a small static-site generator.
Strings are modelled as `List Char`; Go's `time.Time` values that occur in the
program are calendar dates, modelled by the `YMD` triple below.  All
definitions are shallow embeddings of the corresponding Go functions; external
libraries (the markdown converter, the template engine, the file system) are
modelled as explicit parameters of the pipeline.
-/

/-- Decimal digit test on a character, as Go's regexp `\d` and `time` package
use it (ASCII 48..57). -/
def isDigitC (c : Char) : Bool :=
  decide (48 ≤ c.toNat) && decide (c.toNat ≤ 57)

/-- Numeric value of an ASCII digit character. -/
def digitVal (c : Char) : Nat := c.toNat - 48

/-- The character `\x7b`. -/
def lbrace : Char := Char.ofNat 123

/-- The character `\x7d`. -/
def rbrace : Char := Char.ofNat 125

/-- A calendar date, the shape of every `time.Time` value the program builds:
parsed `YYYY-MM-DD` dates, `time.Now()` fallbacks, and the zero time. -/
structure YMD where
  y : Nat
  m : Nat
  d : Nat
deriving DecidableEq, Repr

/-- Leap-year rule used by Go's `time` package (`isLeap`). -/
def isLeap (y : Nat) : Bool :=
  (y % 4 == 0) && (y % 100 != 0 || y % 400 == 0)

/-- Days in a month, as Go's `time.daysIn`. -/
def daysIn (y m : Nat) : Nat :=
  if m = 2 then (if isLeap y then 29 else 28)
  else if m = 4 ∨ m = 6 ∨ m = 9 ∨ m = 11 then 30
  else 31

/-- Go's `time.Parse("2006-01-02", s)`: exactly four digits, dash, two digits,
dash, two digits, with month and day-of-month range checks.  `none` models a
non-nil parse error. -/
def goParseYMD (s : List Char) : Option YMD :=
  match s with
  | [y1, y2, y3, y4, s1, m1, m2, s2, d1, d2] =>
    if isDigitC y1 && isDigitC y2 && isDigitC y3 && isDigitC y4 && (s1 == '-') &&
       isDigitC m1 && isDigitC m2 && (s2 == '-') && isDigitC d1 && isDigitC d2 then
      let yv := ((digitVal y1 * 10 + digitVal y2) * 10 + digitVal y3) * 10 + digitVal y4
      let mv := digitVal m1 * 10 + digitVal m2
      let dv := digitVal d1 * 10 + digitVal d2
      if 1 ≤ mv ∧ mv ≤ 12 then
        if 1 ≤ dv ∧ dv ≤ daysIn yv mv then some ⟨yv, mv, dv⟩ else none
      else none
    else none
  | _ => none

/-- Length of the run of decimal digits at the head of the list. -/
def digitRun : List Char → Nat
  | [] => 0
  | c :: cs => if isDigitC c then digitRun cs + 1 else 0

/-- Length of the match of `\d\x7b1,4\x7d-\d\x7b1,2\x7d-\d\x7b1,2\x7d` anchored
at the head of `s`, under Go's leftmost, greedy-with-backtracking semantics:
each digit group must consume its entire digit run (otherwise the following
literal `-` cannot match), and the final group greedily takes at most two
digits. -/
def matchLenAt (s : List Char) : Option Nat :=
  let r := digitRun s
  if 1 ≤ r ∧ r ≤ 4 then
    match s.drop r with
    | '-' :: s2 =>
      let r2 := digitRun s2
      if 1 ≤ r2 ∧ r2 ≤ 2 then
        match s2.drop r2 with
        | '-' :: s3 =>
          let r3 := digitRun s3
          if 1 ≤ r3 then some (r + 1 + r2 + 1 + min r3 2) else none
        | _ => none
      else none
    | _ => none
  else none

/-- Go's `r.FindString(name)` for the date pattern: the match at the leftmost
position admitting one; `none` models the empty string returned when there is
no match. -/
def findMatch : List Char → Option (List Char)
  | [] => none
  | c :: cs =>
    match matchLenAt (c :: cs) with
    | some n => some ((c :: cs).take n)
    | none => findMatch cs

/-- Read a nonempty run of decimal digits as a number, returning the rest. -/
def readNum (s : List Char) : Option (Nat × List Char) :=
  let ds := s.takeWhile isDigitC
  if ds.isEmpty then none
  else some (ds.foldl (fun a c => a * 10 + digitVal c) 0, s.drop ds.length)

/-- Check a counted-repetition suffix `m\x7d` or `m,n\x7d` following `\x7b`,
with RE2's constraints (min ≤ max ≤ 1000); returns the remaining pattern. -/
def checkRepSuffix (s : List Char) : Option (List Char) :=
  match readNum s with
  | none => none
  | some (m, s1) =>
    match s1 with
    | [] => none
    | c :: s2 =>
      if c = rbrace then (if m ≤ 1000 then some s2 else none)
      else if c = ',' then
        match readNum s2 with
        | none => none
        | some (n, s3) =>
          match s3 with
          | [] => none
          | c2 :: s4 =>
            if c2 = rbrace ∧ m ≤ n ∧ n ≤ 1000 then some s4 else none
      else none

/-- Syntactic validity of a regular expression over the constructs RE2 accepts
that this program's pattern uses: literals, groups, class escapes, counted
repetition and the `*`/`+`/`?` operators.  Models the syntax check performed by
`regexp.Compile`; `depth` tracks open groups and `prevAtom` whether a
repeatable atom was just read.  The fuel argument dominates the pattern length,
so it never runs out on a full run from `checkRe`. -/
def checkReAux : Nat → List Char → Nat → Bool → Bool
  | 0, s, depth, _ => s.isEmpty && depth == 0
  | _ + 1, [], depth, _ => depth == 0
  | fuel + 1, c :: rest, depth, prevAtom =>
    if c = '(' then checkReAux fuel rest (depth + 1) false
    else if c = ')' then (depth != 0) && checkReAux fuel rest (depth - 1) true
    else if c = '\\' then
      match rest with
      | [] => false
      | c2 :: rest2 =>
        (c2 == 'd' || c2 == 'D' || c2 == 'w' || c2 == 'W' || c2 == 's' || c2 == 'S') &&
          checkReAux fuel rest2 depth true
    else if c = lbrace then
      prevAtom &&
        (match checkRepSuffix rest with
         | some rest2 => checkReAux fuel rest2 depth false
         | none => false)
    else if c = '*' ∨ c = '+' ∨ c = '?' then prevAtom && checkReAux fuel rest depth false
    else if c = rbrace ∨ c = '[' ∨ c = ']' ∨ c = '|' ∨ c = '^' ∨ c = '$' ∨ c = '.' then false
    else checkReAux fuel rest depth true

/-- Validity of a whole pattern (models `regexp.Compile` succeeding). -/
def checkRe (p : List Char) : Bool := checkReAux (p.length + 1) p 0 false

/-- The fixed pattern `(\d\x7b1,4\x7d)-(\d\x7b1,2\x7d)-(\d\x7b1,2\x7d)`
compiled by `parseDate`. -/
def datePattern : List Char :=
  ['(', '\\', 'd', lbrace, '1', ',', '4', rbrace, ')', '-',
   '(', '\\', 'd', lbrace, '1', ',', '2', rbrace, ')', '-',
   '(', '\\', 'd', lbrace, '1', ',', '2', rbrace, ')']

/-- Outcome tag of `parseDate`: `ok` is a nil error, the others are the three
distinct non-nil error returns of the Go function. -/
inductive DateErr where
  | ok
  | timeErr
  | noDate
  | compileFail
deriving DecidableEq, Repr

/-- `parseDate` from `instigator.go` (lines 77-93).  `now` stands for the
`time.Now()` value the Go code pairs with every error return.  The first
component is the returned time, the second the error. -/
def parseDate (now : YMD) (name : List Char) : YMD × DateErr :=
  if checkRe datePattern then
    let ds := (findMatch name).getD []
    if ds.length = 10 then
      match goParseYMD ds with
      | some d => (d, DateErr.ok)
      | none => (now, DateErr.timeErr)
    else (now, DateErr.noDate)
  else (now, DateErr.compileFail)

/-- The ten-character window of `s` starting at position `i`, strictly parsed
as a date; `some d` says `s` contains the valid calendar-date substring `d` of
exact shape `YYYY-MM-DD` at position `i`. -/
def validDateAt (s : List Char) (i : Nat) : Option YMD :=
  goParseYMD ((s.drop i).take 10)

/-- Go's `strings.TrimLeft(s, cutset)`: drop leading characters that occur in
`cutset`. -/
def trimLeftCut (cutset s : List Char) : List Char :=
  s.dropWhile (fun c => cutset.contains c)

/-- Go's `strings.TrimRight(s, cutset)`: drop trailing characters that occur
in `cutset`. -/
def trimRightCut (s cutset : List Char) : List Char :=
  (s.reverse.dropWhile (fun c => cutset.contains c)).reverse

/-- Go's `filepath.Base`. -/
def goBase (p : List Char) : List Char :=
  if p.isEmpty then ['.']
  else
    let r1 := p.reverse.dropWhile (fun c => c == '/')
    if r1.isEmpty then ['/']
    else (r1.takeWhile (fun c => !(c == '/'))).reverse

/-- Go's `filepath.Ext`: the suffix starting at the final dot in the final
path element, empty if there is none. -/
def goExt (p : List Char) : List Char :=
  let seg := p.reverse.takeWhile (fun c => !(c == '/'))
  if seg.contains '.' then ((seg.takeWhile (fun c => !(c == '.'))) ++ ['.']).reverse
  else []

/-- `trimPath` from `instigator.go` (lines 95-99): base name with the
extension's characters trimmed from the right.  Note this is a character-class
trim, not removal of the literal extension suffix. -/
def trimPath (path : List Char) : List Char :=
  let fn := goBase path
  let ext := goExt fn
  trimRightCut fn ext

/-- Decimal digits of `n`, zero-padded on the left to width `w`; the pieces of
Go's `date.Format("2006-01-02")`. -/
def padNum (w n : Nat) : List Char :=
  let s := Nat.toDigits 10 n
  List.replicate (w - s.length) '0' ++ s

/-- Go's `date.Format("2006-01-02")`. -/
def fmtDate (d : YMD) : List Char :=
  padNum 4 d.y ++ '-' :: (padNum 2 d.m ++ '-' :: padNum 2 d.d)

/-- The rename decision of `prepare` (`instigator.go` lines 225-239) for one
source file: `some nn` is the new file name (the final path component of the
`filepath.Join(config.SourceDir, ...)` target) when date parsing on the
trimmed name fails, `none` when the file keeps its name.  `today` stands for
`time.Now()`. -/
def prepareNewName (today : YMD) (srcFile : List Char) : Option (List Char) :=
  let name := trimPath srcFile
  let r := parseDate today name
  if r.2 = DateErr.ok then none
  else some (fmtDate r.1 ++ '-' :: (name ++ goExt srcFile))

/-- One source markdown file: its name (the path component inside `SourceDir`)
and its contents, `none` when reading it fails. -/
structure SrcFile where
  path : List Char
  content : Option (List Char)
deriving DecidableEq, Repr

/-- `prepare` applied to one file: the file after the step together with the
rename performed on disk, if any.  Rename failures (logged, non-fatal in Go)
are not modelled; the theorems about `prepare` concern the rename target. -/
def prepStep (today : YMD) (f : SrcFile) : SrcFile × Option (List Char × List Char) :=
  match prepareNewName today f.path with
  | some nn => (⟨nn, f.content⟩, some (f.path, nn))
  | none => (f, none)

/-- `prepare` from `instigator.go` (lines 218-242): the source directory after
the renames, and the list of performed renames (old name, new name). -/
def prepare (today : YMD) (files : List SrcFile) : List SrcFile × List (List Char × List Char) :=
  (files.map (fun f => (prepStep today f).1),
   files.filterMap (fun f => (prepStep today f).2))

/-- Go's `strings.Split(s, "\n")`. -/
def splitNl : List Char → List (List Char)
  | [] => [[]]
  | c :: rest =>
    if c = '\n' then [] :: splitNl rest
    else
      match splitNl rest with
      | [] => [[c]]
      | l :: ls => (c :: l) :: ls

/-- Whether a line starts the title: its content after stripping leading
spaces begins with `#` (the loop guard at `instigator.go` line 63). -/
def hashLine (l : List Char) : Bool :=
  match trimLeftCut [' '] l with
  | c :: _ => c == '#'
  | [] => false

/-- The title extracted from a title line (`instigator.go` line 64): leading
spaces, then leading `#` characters, then the following spaces stripped. -/
def stripTitle (l : List Char) : List Char :=
  trimLeftCut [' '] (trimLeftCut ['#'] (trimLeftCut [' '] l))

/-- The title scan of `parseSourceFile` (`instigator.go` lines 61-67): the
first line whose space-stripped content begins with `#` yields the title;
otherwise the title stays empty. -/
def parseTitle : List (List Char) → List Char
  | [] => []
  | line :: rest =>
    match trimLeftCut [' '] line with
    | c :: t =>
      if c == '#' then trimLeftCut [' '] (trimLeftCut ['#'] (c :: t))
      else parseTitle rest
    | [] => parseTitle rest

/-- The `Post` struct of `instigator.go` (lines 28-33). -/
structure Post where
  Name : List Char
  Title : List Char
  Content : List Char
  Date : YMD
deriving DecidableEq, Repr

/-- The zero value of `time.Time`, January 1 of year 1. -/
def zeroYMD : YMD := ⟨1, 1, 1⟩

/-- The zero value of `Post`, as produced by `make(Posts, n)`. -/
def zeroPost : Post := ⟨[], [], [], zeroYMD⟩

/-- `parseSourceFile` from `instigator.go` (lines 42-75).  `md` is the
external `blackfriday.MarkdownCommon` converter, `now` the wall clock used by
the date fallback; a `none` content models a file-read error, which aborts the
parse. -/
def parseSourceFile (md : List Char → List Char) (now : YMD)
    (path : List Char) (content : Option (List Char)) : Option Post :=
  let name := trimPath path
  let date := (parseDate now name).1
  match content with
  | none => none
  | some data =>
    let lines := splitNl data
    some ⟨name, parseTitle lines, md (List.intercalate ['\n'] lines), date⟩

/-- The anonymous `{Title, Content}` struct rendered into `main.html` by
`writeIndex` (`instigator.go` lines 152-158). -/
structure TitleContent where
  Title : List Char
  Content : List Char
deriving DecidableEq, Repr

/-- The data values handed to templates: a single post, a title/content page,
or the posts collection. -/
inductive TmplValue where
  | post : Post → TmplValue
  | page : TitleContent → TmplValue
  | posts : List Post → TmplValue

/-- The external state of a run: the markdown converter, the template engine
(`exec t v` is the outcome of parsing and executing template text `t` on value
`v`, `none` a compile/execute error), the three template files (`none` models
a read error), and the success of each output-file write. -/
structure Env where
  md : List Char → List Char
  exec : List Char → TmplValue → Option (List Char)
  mainTmpl : Option (List Char)
  recentTmpl : Option (List Char)
  feedTmpl : Option (List Char)
  writeOk : List Char → Bool

/-- `renderTemplate` from `instigator.go` (lines 101-120): read the template
file, compile and execute it on the data value; any failure propagates. -/
def renderTemplate (env : Env) (tmpl : Option (List Char)) (v : TmplValue) :
    Option (List Char) :=
  match tmpl with
  | none => none
  | some t => env.exec t v

/-- `writePost` from `instigator.go` (lines 173-195): parse the source file,
render it through `main.html` and write `{slug}.html`; returns the post and
the written output file, or `none` on any failure. -/
def writePost (now : YMD) (env : Env) (f : SrcFile) :
    Option (Post × (List Char × List Char)) :=
  match parseSourceFile env.md now f.path f.content with
  | none => none
  | some post =>
    match renderTemplate env env.mainTmpl (TmplValue.post post) with
    | none => none
    | some out =>
      let outPath := post.Name ++ ".html".toList
      if env.writeOk outPath then some (post, (outPath, out)) else none

/-- Strict chronological order on dates (what `time.Time.Before`/`After`
decide for the calendar dates this program constructs). -/
def dateLtP (a b : YMD) : Prop :=
  a.y < b.y ∨ (a.y = b.y ∧ (a.m < b.m ∨ (a.m = b.m ∧ a.d < b.d)))

instance (a b : YMD) : Decidable (dateLtP a b) := by
  unfold dateLtP; infer_instance

/-- Go's `a.After(b)`. -/
def after (a b : YMD) : Bool := decide (dateLtP b a)

/-- The order in which `sort.Sort` leaves elements for the `Posts.Less` of
`instigator.go` line 39: `a` may precede `b` iff `Less(b, a)` fails, i.e. `b`'s
date is not after `a`'s. -/
def postLe (a b : Post) : Bool := !(after b.Date a.Date)

/-- `postLe` as a relation, the sortedness contract of `sort.Sort(posts)`. -/
def rDesc (a b : Post) : Prop := postLe a b = true

instance : DecidableRel rDesc := fun a b => Bool.decEq (postLe a b) true

instance : IsTotal Post rDesc :=
  ⟨by
    intro a b
    simp only [rDesc, postLe, after, Bool.not_eq_true', decide_eq_false_iff_not]
    unfold dateLtP
    omega⟩

instance : IsTrans Post rDesc :=
  ⟨by
    intro a b c hab hbc
    simp only [rDesc, postLe, after, Bool.not_eq_true', decide_eq_false_iff_not] at *
    unfold dateLtP at *
    omega⟩

/-- The effect of `sort.Sort(posts)` with `Posts.Less`: a permutation of the
posts that is sorted by descending date.  `sort.Sort` guarantees exactly
sortedness w.r.t. `Less` and being a permutation; insertion sort realises that
contract. -/
def sortPosts (ps : List Post) : List Post := List.insertionSort rDesc ps

/-- `writeIndex` from `instigator.go` (lines 142-171): sort, render the
collection through `recent.html`, wrap it with a fixed title in `main.html`,
write `index.html`. -/
def writeIndex (env : Env) (posts : List Post) : Option (List Char × List Char) :=
  let sorted := sortPosts posts
  match renderTemplate env env.recentTmpl (TmplValue.posts sorted) with
  | none => none
  | some out =>
    match renderTemplate env env.mainTmpl
        (TmplValue.page ⟨"my page".toList, out⟩) with
    | none => none
    | some out2 =>
      if env.writeOk ("index.html".toList) then some ("index.html".toList, out2)
      else none

/-- `writeFeed` from `instigator.go` (lines 197-212): sort, render the
collection through `feed.html`, write `feed.html`. -/
def writeFeed (env : Env) (posts : List Post) : Option (List Char × List Char) :=
  let sorted := sortPosts posts
  match renderTemplate env env.feedTmpl (TmplValue.posts sorted) with
  | none => none
  | some out =>
    if env.writeOk ("feed.html".toList) then some ("feed.html".toList, out) else none

/-- The post-collection loop of `main` (`instigator.go` lines 265-273): walk
the indexed source files, writing each successful post into its slot of the
pre-sized collection. -/
def loopPosts (now : YMD) (env : Env) : List (Nat × SrcFile) → List Post → List Post
  | [], acc => acc
  | p :: rest, acc =>
    loopPosts now env rest
      (match writePost now env p.2 with
       | some pr => acc.set p.1 pr.1
       | none => acc)

/-- `posts := make(Posts, len(srcFiles))` followed by the loop: the collection
handed to `writeIndex` and `writeFeed`. -/
def buildPosts (now : YMD) (env : Env) (files : List SrcFile) : List Post :=
  loopPosts now env files.enum (List.replicate files.length zeroPost)

/-- The per-post pages written by the loop of `main`, in order. -/
def pagesOf (now : YMD) (env : Env) (files : List SrcFile) :
    List (List Char × List Char) :=
  files.filterMap (fun f => (writePost now env f).map Prod.snd)

/-- The output files of one run. -/
structure RunOut where
  pages : List (List Char × List Char)
  indexPage : Option (List Char × List Char)
  feedPage : Option (List Char × List Char)
deriving DecidableEq, Repr

/-- One full run of `main` (`instigator.go` lines 244-289) after a successful
config load: prepare the source directory, re-list it, write the posts, the
index and the feed.  Returns the source directory after the run and the
written outputs.  `writeFeed` receives the collection already sorted in place
by `writeIndex`. -/
def mainRun (now : YMD) (env : Env) (files : List SrcFile) : List SrcFile × RunOut :=
  ((prepare now files).1,
   ⟨pagesOf now env (prepare now files).1,
    writeIndex env (buildPosts now env (prepare now files).1),
    writeFeed env (sortPosts (buildPosts now env (prepare now files).1))⟩)

/-- Example posts carrying the spec's sorting-example dates. -/
def ps3 : List Post :=
  [⟨"a".toList, [], [], ⟨2020, 1, 1⟩⟩,
   ⟨"b".toList, [], [], ⟨2022, 6, 15⟩⟩,
   ⟨"c".toList, [], [], ⟨2021, 3, 3⟩⟩]

/-- An example post dated after the zero time. -/
def postB : Post := ⟨"b".toList, [], [], ⟨2021, 3, 3⟩⟩

/-- A concrete environment: identity markdown, a template engine that echoes
the template text, empty templates, all writes succeeding. -/
def envA : Env :=
  ⟨fun x => x, fun t _ => some t, some [], some [], some [], fun _ => true⟩

/-- A concrete date-prefixed, readable source file. -/
def fileA : SrcFile := ⟨"2021-03-05-hello.md".toList, some "# Hi".toList⟩

/-! ### Helper lemmas -/

theorem checkRe_datePattern : checkRe datePattern = true := by decide

theorem parseDate_unfold (now : YMD) (name : List Char) :
    parseDate now name =
      (if ((findMatch name).getD []).length = 10 then
        (match goParseYMD ((findMatch name).getD []) with
         | some d => (d, DateErr.ok)
         | none => (now, DateErr.timeErr))
      else (now, DateErr.noDate)) := by
  simp [parseDate, checkRe_datePattern]

theorem parseDate_fst_of_err (now : YMD) (name : List Char)
    (h : (parseDate now name).2 ≠ DateErr.ok) : (parseDate now name).1 = now := by
  rw [parseDate_unfold] at h ⊢
  by_cases h10 : ((findMatch name).getD []).length = 10
  · rcases hg : goParseYMD ((findMatch name).getD []) with _ | d
    · simp [h10, hg]
    · simp [h10, hg] at h
  · simp [h10]

theorem parseDate_congr (now now2 : YMD) (name : List Char)
    (h : (parseDate now name).2 = DateErr.ok) :
    parseDate now2 name = parseDate now name := by
  rw [parseDate_unfold now name] at h
  rw [parseDate_unfold now2 name, parseDate_unfold now name]
  by_cases h10 : ((findMatch name).getD []).length = 10
  · rcases hg : goParseYMD ((findMatch name).getD []) with _ | d
    · simp [h10, hg] at h
    · simp [h10, hg]
  · simp [h10] at h

theorem rDesc_iff (a b : Post) : rDesc a b ↔ ¬ dateLtP a.Date b.Date := by
  unfold rDesc postLe after
  simp

theorem sortPosts_sorted (ps : List Post) : List.Sorted rDesc (sortPosts ps) :=
  List.sorted_insertionSort rDesc ps

theorem sortPosts_perm (ps : List Post) : (sortPosts ps).Perm ps :=
  List.perm_insertionSort rDesc ps

theorem head?_dropWhile_false (p : Char → Bool) (l : List Char) (c : Char)
    (h : (l.dropWhile p).head? = some c) : p c = false := by
  have hd := List.head?_dropWhile_not p l
  rw [h] at hd
  exact hd

theorem snd_mem_enumFrom :
    ∀ (l : List SrcFile) (n : Nat) (p : Nat × SrcFile),
      p ∈ List.enumFrom n l → p.2 ∈ l := by
  intro l
  induction l with
  | nil => intro n p h; simp at h
  | cons f rest ih =>
    intro n p h
    rw [List.enumFrom_cons] at h
    rcases List.mem_cons.mp h with h1 | h2
    · rw [h1]
      exact List.mem_cons_self f rest
    · exact List.mem_cons_of_mem f (ih (n + 1) p h2)

theorem loopPosts_length (now : YMD) (env : Env) :
    ∀ (ps : List (Nat × SrcFile)) (acc : List Post),
      (loopPosts now env ps acc).length = acc.length := by
  intro ps
  induction ps with
  | nil => intro acc; rfl
  | cons p rest ih =>
    intro acc
    show (loopPosts now env rest
      (match writePost now env p.2 with
       | some pr => acc.set p.1 pr.1
       | none => acc)).length = acc.length
    cases hw : writePost now env p.2 with
    | none => exact ih acc
    | some pr => rw [ih (acc.set p.1 pr.1), List.length_set]

theorem loopPosts_congr (now now2 : YMD) (env : Env) :
    ∀ (ps : List (Nat × SrcFile)) (acc : List Post),
      (∀ p ∈ ps, writePost now2 env p.2 = writePost now env p.2) →
      loopPosts now2 env ps acc = loopPosts now env ps acc := by
  intro ps
  induction ps with
  | nil => intro acc _; rfl
  | cons p rest ih =>
    intro acc h
    show loopPosts now2 env rest
        (match writePost now2 env p.2 with
         | some pr => acc.set p.1 pr.1
         | none => acc) =
      loopPosts now env rest
        (match writePost now env p.2 with
         | some pr => acc.set p.1 pr.1
         | none => acc)
    rw [h p (List.mem_cons_self p rest)]
    exact ih _ (fun q hq => h q (List.mem_cons_of_mem p hq))

theorem loopPosts_get_lt (now : YMD) (env : Env) :
    ∀ (fs : List SrcFile) (n i : Nat) (acc : List Post), i < n →
      (loopPosts now env (List.enumFrom n fs) acc)[i]? = acc[i]? := by
  intro fs
  induction fs with
  | nil => intro n i acc _; rfl
  | cons f rest ih =>
    intro n i acc h
    rw [List.enumFrom_cons]
    show (loopPosts now env (List.enumFrom (n + 1) rest)
      (match writePost now env f with
       | some pr => acc.set n pr.1
       | none => acc))[i]? = acc[i]?
    cases hw : writePost now env f with
    | none => exact ih (n + 1) i acc (by omega)
    | some pr =>
      rw [ih (n + 1) i (acc.set n pr.1) (by omega)]
      exact List.getElem?_set_ne (by omega)

theorem loopPosts_get_slot (now : YMD) (env : Env) :
    ∀ (fs : List SrcFile) (n : Nat) (acc : List Post) (j : Nat) (f : SrcFile),
      fs[j]? = some f → n + fs.length ≤ acc.length →
      (loopPosts now env (List.enumFrom n fs) acc)[n + j]? =
        (match writePost now env f with
         | some pr => some pr.1
         | none => acc[n + j]?) := by
  intro fs
  induction fs with
  | nil => intro n acc j f hj _; simp at hj
  | cons g rest ih =>
    intro n acc j f hj hlen
    rw [List.enumFrom_cons]
    show (loopPosts now env (List.enumFrom (n + 1) rest)
      (match writePost now env g with
       | some pr => acc.set n pr.1
       | none => acc))[n + j]? =
      (match writePost now env f with
       | some pr => some pr.1
       | none => acc[n + j]?)
    rcases j with _ | j2
    · have hgf : g = f := by simpa using hj
      rw [hgf]
      have hn : n < acc.length := by
        rw [List.length_cons] at hlen
        omega
      cases hw : writePost now env f with
      | none =>
        rw [loopPosts_get_lt now env rest (n + 1) (n + 0) acc (by omega)]
      | some pr =>
        rw [loopPosts_get_lt now env rest (n + 1) (n + 0) (acc.set n pr.1) (by omega)]
        rw [Nat.add_zero]
        exact List.getElem?_set_self hn
    · have hj2 : rest[j2]? = some f := by simpa using hj
      have harr : n + (j2 + 1) = (n + 1) + j2 := by omega
      rw [harr]
      have hlen2 : n + (g :: rest).length ≤ acc.length := hlen
      rw [List.length_cons] at hlen2
      cases hw : writePost now env g with
      | none => exact ih (n + 1) acc j2 f hj2 (by omega)
      | some pr =>
        rw [ih (n + 1) (acc.set n pr.1) j2 f hj2 (by rw [List.length_set]; omega)]
        cases writePost now env f with
        | some pr2 => rfl
        | none => exact List.getElem?_set_ne (by omega)

theorem buildPosts_get (now : YMD) (env : Env) (files : List SrcFile)
    (i : Nat) (f : SrcFile) (h : files[i]? = some f) :
    (buildPosts now env files)[i]? =
      some (match writePost now env f with
            | some pr => pr.1
            | none => zeroPost) := by
  have hi : i < files.length := by
    rcases List.getElem?_eq_some_iff.mp h with ⟨hlt, _⟩
    exact hlt
  have h0 := loopPosts_get_slot now env files 0 (List.replicate files.length zeroPost)
    i f h (by rw [List.length_replicate]; omega)
  rw [Nat.zero_add] at h0
  show (loopPosts now env (List.enumFrom 0 files) (List.replicate files.length zeroPost))[i]? = _
  rw [h0]
  cases writePost now env f with
  | some pr => rfl
  | none => exact List.getElem?_replicate_of_lt hi

theorem buildPosts_length (now : YMD) (env : Env) (files : List SrcFile) :
    (buildPosts now env files).length = files.length := by
  unfold buildPosts
  rw [loopPosts_length, List.length_replicate]

theorem filterMapCongr {α β : Type} (g1 g2 : α → Option β) :
    ∀ (l : List α), (∀ a ∈ l, g1 a = g2 a) → l.filterMap g1 = l.filterMap g2 := by
  intro l
  induction l with
  | nil => intro _; rfl
  | cons a rest ih =>
    intro h
    rw [List.filterMap_cons, List.filterMap_cons, h a (List.mem_cons_self a rest),
      ih (fun b hb => h b (List.mem_cons_of_mem a hb))]

/-! ### Claims -/

/-- Claim C1, counterexample: `"1-2-3-2021-03-05.md"` contains the valid
calendar-date substring `2021-03-05` of exact shape `YYYY-MM-DD` at position 6,
yet `parseDate` does not return that date with no error: the leftmost loose
match is `1-2-3`, whose length is not 10, so the fallback time and a non-nil
error are returned instead. -/
theorem claim_C1_cex :
    validDateAt ("1-2-3-2021-03-05.md".toList) 6 = some ⟨2021, 3, 5⟩ ∧
    parseDate ⟨2026, 10, 11⟩ ("1-2-3-2021-03-05.md".toList) =
      (⟨2026, 10, 11⟩, DateErr.noDate) ∧
    parseDate ⟨2026, 10, 11⟩ ("1-2-3-2021-03-05.md".toList) ≠
      (⟨2021, 3, 5⟩, DateErr.ok) :=
  ⟨by decide, by decide, by decide⟩

/-- Claim C1, amended: whenever the *first* loose-pattern match of the input
has length exactly 10 and strictly parses as a calendar date, `parseDate`
returns exactly that date with no error (e.g. `"2021-03-05-hello.md"` yields
2021-03-05).  An input may contain a valid 10-character date substring and
still fail when an earlier, shorter loose match precedes it. -/
theorem claim_C1_amended (now : YMD) (s ds : List Char) (d : YMD)
    (h1 : findMatch s = some ds) (h2 : ds.length = 10)
    (h3 : goParseYMD ds = some d) :
    parseDate now s = (d, DateErr.ok) := by
  rw [parseDate_unfold, h1]
  simp [h2, h3]

/-- Witness for C1 (amended), at the spec's own example input. -/
theorem claim_C1_witness :
    (findMatch ("2021-03-05-hello.md".toList) = some ("2021-03-05".toList) ∧
     ("2021-03-05".toList).length = 10 ∧
     goParseYMD ("2021-03-05".toList) = some ⟨2021, 3, 5⟩) ∧
    parseDate ⟨2026, 10, 11⟩ ("2021-03-05-hello.md".toList) =
      (⟨2021, 3, 5⟩, DateErr.ok) :=
  ⟨⟨by decide, by decide, by decide⟩,
   claim_C1_amended ⟨2026, 10, 11⟩ ("2021-03-05-hello.md".toList)
     ("2021-03-05".toList) ⟨2021, 3, 5⟩ (by decide) (by decide) (by decide)⟩

/-- Claim C2: `trimPath` performs a character-class trim, removing from the
base file name every trailing character that belongs to the extension's
character set, not just the literal extension suffix: e.g. a `.md` name has
all trailing `.`, `m`, `d` characters stripped (`foo-md.md` becomes `foo-`,
`add.md` becomes `a`), and the result never ends in a character of the
extension's set. -/
theorem claim_C2 :
    (∀ path : List Char,
       trimPath path =
         List.rdropWhile (fun c => (goExt (goBase path)).contains c) (goBase path)) ∧
    (∀ (path : List Char) (c : Char),
       (trimPath path).getLast? = some c →
       (goExt (goBase path)).contains c = false) ∧
    trimPath ("foo-md.md".toList) = "foo-".toList ∧
    trimPath ("add.md".toList) = "a".toList := by
  refine ⟨fun path => rfl, ?_, by decide, by decide⟩
  intro path c h
  simp only [trimPath, trimRightCut] at h
  rw [List.getLast?_reverse] at h
  exact head?_dropWhile_false _ _ c h

/-- Witness for C2 at a concrete path. -/
theorem claim_C2_witness :
    (trimPath ("foo-md.md".toList)).getLast? = some '-' ∧
    (goExt (goBase ("foo-md.md".toList))).contains '-' = false :=
  ⟨by decide, claim_C2.2.1 ("foo-md.md".toList) '-' (by decide)⟩

/-- Claim C3, counterexample: the dateless source file `add.md` is renamed to
`2026-10-11-a.md` (for today = 2026-10-11), not to
`2026-10-11-add.md` as the claim's `{today}-{original-base-name}{ext}` demands:
the part between the date prefix and the extension is `trimPath`'s
character-class-trimmed name, not the base name with only the extension
removed. -/
theorem claim_C3_cex :
    (parseDate ⟨2026, 10, 11⟩ (trimPath ("add.md".toList))).2 ≠ DateErr.ok ∧
    prepareNewName ⟨2026, 10, 11⟩ ("add.md".toList) =
      some ("2026-10-11-a.md".toList) ∧
    prepareNewName ⟨2026, 10, 11⟩ ("add.md".toList) ≠
      some ("2026-10-11-add.md".toList) :=
  ⟨by decide, by decide, by decide⟩

/-- Claim C3, amended: every discovered source file whose trimmed name
contains no parseable date is renamed to
`{today:YYYY-MM-DD}-{trimPath(file)}{original-extension}`, where
`trimPath(file)` is the character-class-trimmed name of §9 — this coincides
with the original base name minus its extension only when the trim removes
exactly the literal extension. -/
theorem claim_C3_amended (today : YMD) (f : List Char)
    (h : (parseDate today (trimPath f)).2 ≠ DateErr.ok) :
    prepareNewName today f =
      some (fmtDate today ++ '-' :: (trimPath f ++ goExt f)) := by
  simp only [prepareNewName]
  rw [if_neg h, parseDate_fst_of_err today (trimPath f) h]

/-- Witness for C3 (amended) at the dateless file `add.md`. -/
theorem claim_C3_witness :
    ((parseDate ⟨2026, 10, 11⟩ (trimPath ("add.md".toList))).2 ≠ DateErr.ok) ∧
    prepareNewName ⟨2026, 10, 11⟩ ("add.md".toList) =
      some (fmtDate ⟨2026, 10, 11⟩ ++
        '-' :: (trimPath ("add.md".toList) ++ goExt ("add.md".toList))) :=
  ⟨by decide, claim_C3_amended ⟨2026, 10, 11⟩ ("add.md".toList) (by decide)⟩

/-- Claim C5: whenever the loose pattern finds no match, or the first match
has a length other than 10, or the strict `YYYY-MM-DD` parse of the match
fails, `parseDate` returns the wall-clock time `now` paired with a non-nil
error, so callers always receive a usable date. -/
theorem claim_C5 (now : YMD) (name : List Char)
    (h : findMatch name = none ∨
         (∃ ds, findMatch name = some ds ∧
            (ds.length ≠ 10 ∨ goParseYMD ds = none))) :
    (parseDate now name).1 = now ∧ (parseDate now name).2 ≠ DateErr.ok := by
  have herr : (parseDate now name).2 ≠ DateErr.ok := by
    rw [parseDate_unfold]
    rcases h with h | ⟨ds, hds, h2⟩
    · rw [h]
      simp
    · rw [hds]
      rcases h2 with h2 | h2
      · simp [h2]
      · by_cases h10 : ds.length = 10
        · simp [h10, h2]
        · simp [h10]
  exact ⟨parseDate_fst_of_err now name herr, herr⟩

/-- Witness for C5 at a name with no match at all. -/
theorem claim_C5_witness :
    (findMatch ("hello.md".toList) = none) ∧
    ((parseDate ⟨2026, 10, 11⟩ ("hello.md".toList)).1 = (⟨2026, 10, 11⟩ : YMD) ∧
     (parseDate ⟨2026, 10, 11⟩ ("hello.md".toList)).2 ≠ DateErr.ok) :=
  ⟨by decide, claim_C5 ⟨2026, 10, 11⟩ ("hello.md".toList) (Or.inl (by decide))⟩

/-- Claim C10: the fixed pattern the program compiles is a syntactically valid
regular expression, so the compile-failure branch of `parseDate` is
unreachable: no input ever produces the compile-error return. -/
theorem claim_C10 :
    checkRe datePattern = true ∧
    ∀ (now : YMD) (name : List Char),
      (parseDate now name).2 ≠ DateErr.compileFail := by
  refine ⟨checkRe_datePattern, ?_⟩
  intro now name
  rw [parseDate_unfold]
  by_cases h10 : ((findMatch name).getD []).length = 10
  · rcases hg : goParseYMD ((findMatch name).getD []) with _ | d <;> simp [h10, hg]
  · simp [h10]

/-- Witness for C10 at a concrete input. -/
theorem claim_C10_witness :
    (parseDate ⟨2026, 10, 11⟩ ("a".toList)).2 ≠ DateErr.compileFail :=
  claim_C10.2 ⟨2026, 10, 11⟩ ("a".toList)

/-- Claim C4, counterexample: the title is stripped of leading characters
only.  For the single line `# My Title #` the parsed title is `My Title #`,
which ends in `#`; for `# # Indent` the parsed title `# Indent` begins with
`#` — so the claim's guarantee that no leading or trailing `#` or space
remains is false. -/
theorem claim_C4_cex :
    parseTitle (splitNl ("# My Title #".toList)) = "My Title #".toList ∧
    ("My Title #".toList).getLast? = some '#' ∧
    parseTitle (splitNl ("# # Indent".toList)) = "# Indent".toList :=
  ⟨by decide, by decide, by decide⟩

/-- Claim C4, amended: the parsed title is determined by the first line whose
content, after stripping leading spaces, begins with `#`: the title is that
line with the leading spaces, then the leading `#` characters, then the
following spaces stripped; if no such line exists the title is empty.  The
title never begins with a space, but trailing `#` or spaces are preserved and
a `#` may reappear after the stripped run. -/
theorem claim_C4_amended :
    (∀ L : List (List Char), (∀ l ∈ L, hashLine l = false) → parseTitle L = []) ∧
    (∀ (pre : List (List Char)) (l : List Char) (rest : List (List Char)),
       (∀ p ∈ pre, hashLine p = false) → hashLine l = true →
       parseTitle (pre ++ l :: rest) = stripTitle l) ∧
    (∀ (L : List (List Char)) (c : Char), (parseTitle L).head? = some c → c ≠ ' ') ∧
    (∀ (md : List Char → List Char) (now : YMD) (path data : List Char),
       (parseSourceFile md now path (some data)).map Post.Title =
         some (parseTitle (splitNl data))) := by
  refine ⟨?_, ?_, ?_, fun md now path data => rfl⟩
  · intro L
    induction L with
    | nil => intro _; rfl
    | cons line rest ih =>
      intro h
      have hl := h line (List.mem_cons_self line rest)
      have hr : ∀ l ∈ rest, hashLine l = false :=
        fun l hm => h l (List.mem_cons_of_mem line hm)
      unfold hashLine at hl
      show parseTitle (line :: rest) = []
      unfold parseTitle
      rcases ht : trimLeftCut [' '] line with _ | ⟨c, t⟩
      · exact ih hr
      · rw [ht] at hl
        dsimp only at hl ⊢
        rw [if_neg (by simp [hl])]
        exact ih hr
  · intro pre
    induction pre with
    | nil =>
      intro l rest _ hl
      unfold hashLine at hl
      show parseTitle (l :: rest) = stripTitle l
      unfold parseTitle stripTitle
      rcases ht : trimLeftCut [' '] l with _ | ⟨c, t⟩
      · rw [ht] at hl
        simp at hl
      · rw [ht] at hl
        dsimp only at hl ⊢
        rw [if_pos hl]
    | cons p pre2 ih =>
      intro l rest hpre hl
      have hp := hpre p (List.mem_cons_self p pre2)
      have hpre2 : ∀ q ∈ pre2, hashLine q = false :=
        fun q hm => hpre q (List.mem_cons_of_mem p hm)
      unfold hashLine at hp
      show parseTitle (p :: (pre2 ++ l :: rest)) = stripTitle l
      unfold parseTitle
      rcases ht : trimLeftCut [' '] p with _ | ⟨c, t⟩
      · exact ih l rest hpre2 hl
      · rw [ht] at hp
        dsimp only at hp ⊢
        rw [if_neg (by simp [hp])]
        exact ih l rest hpre2 hl
  · intro L
    induction L with
    | nil => intro c h; simp [parseTitle] at h
    | cons line rest ih =>
      intro c h
      rw [show parseTitle (line :: rest) =
            (match trimLeftCut [' '] line with
             | c2 :: t =>
               if c2 == '#' then trimLeftCut [' '] (trimLeftCut ['#'] (c2 :: t))
               else parseTitle rest
             | [] => parseTitle rest) from rfl] at h
      rcases ht : trimLeftCut [' '] line with _ | ⟨c2, t⟩
      · rw [ht] at h
        exact ih c h
      · rw [ht] at h
        dsimp only at h
        by_cases hc : (c2 == '#') = true
        · rw [if_pos hc] at h
          have := head?_dropWhile_false (fun ch => List.contains [' '] ch) _ c h
          intro hsp
          rw [hsp] at this
          simp at this
        · rw [if_neg hc] at h
          exact ih c h

/-- Witness for C4 (amended), at the spec's `# My Title` example preceded by a
non-title line. -/
theorem claim_C4_witness :
    ((∀ p ∈ [("hello".toList)], hashLine p = false) ∧
     hashLine ("  # My Title".toList) = true) ∧
    parseTitle ([("hello".toList)] ++ ("  # My Title".toList) :: [("body".toList)]) =
      stripTitle ("  # My Title".toList) :=
  ⟨⟨by decide, by decide⟩,
   claim_C4_amended.2.1 [("hello".toList)] ("  # My Title".toList) [("body".toList)]
     (by decide) (by decide)⟩

/-- Claim C6: the sort applied to the Posts collection before index and feed
rendering is descending by date: the spec's example dates
[2020-01-01, 2022-06-15, 2021-03-03] come out as
[2022-06-15, 2021-03-03, 2020-01-01]; in general the sorted sequence is a
permutation of the input in which no post's date is after the date of the
post preceding it (no order is guaranteed among equal dates). -/
theorem claim_C6 :
    (sortPosts ps3).map Post.Date =
      [⟨2022, 6, 15⟩, ⟨2021, 3, 3⟩, ⟨2020, 1, 1⟩] ∧
    (∀ ps : List Post,
       List.Pairwise (fun a b => after b.Date a.Date = false) (sortPosts ps)) ∧
    (∀ ps : List Post, (sortPosts ps).Perm ps) := by
  refine ⟨by decide, ?_, sortPosts_perm⟩
  intro ps
  exact (sortPosts_sorted ps).imp (fun hab => by
    simpa [rDesc, postLe] using hab)

/-- Claim C7: the collection handed to index/feed rendering has exactly one
slot per discovered source file: a successfully written post is stored at the
index of its source file, and a file whose parse or render failed leaves its
slot holding the zero-valued `Post`. -/
theorem claim_C7 (now : YMD) (env : Env) (files : List SrcFile) :
    (buildPosts now env files).length = files.length ∧
    ∀ (i : Nat) (f : SrcFile), files[i]? = some f →
      (buildPosts now env files)[i]? =
        some (match writePost now env f with
              | some pr => pr.1
              | none => zeroPost) :=
  ⟨buildPosts_length now env files, fun i f h => buildPosts_get now env files i f h⟩

/-- Witness for C7 on a one-file listing whose file cannot be read. -/
theorem claim_C7_witness :
    ([(⟨"bad.md".toList, none⟩ : SrcFile)][0]? =
      some (⟨"bad.md".toList, none⟩ : SrcFile)) ∧
    (buildPosts ⟨2026, 10, 11⟩ envA [⟨"bad.md".toList, none⟩])[0]? =
      some (match writePost ⟨2026, 10, 11⟩ envA (⟨"bad.md".toList, none⟩ : SrcFile) with
            | some pr => pr.1
            | none => zeroPost) :=
  ⟨by decide,
   (claim_C7 ⟨2026, 10, 11⟩ envA [⟨"bad.md".toList, none⟩]).2 0
     (⟨"bad.md".toList, none⟩ : SrcFile) (by decide)⟩

/-- Claim C9: the zero-valued post left by a failed slot carries the zero
time as its date, and the descending sort places every post whose date is
after the zero time strictly before every zero-dated post, so failed slots end
up at the tail of the sorted listing. -/
theorem claim_C9 :
    zeroPost.Date = zeroYMD ∧
    ∀ (ps : List Post) (i j : Nat) (pa pb : Post),
      (sortPosts ps)[i]? = some pa → (sortPosts ps)[j]? = some pb →
      pa.Date = zeroYMD → after pb.Date zeroYMD = true → j < i := by
  refine ⟨rfl, ?_⟩
  intro ps i j pa pb hi hj hz haft
  rcases List.getElem?_eq_some_iff.mp hi with ⟨hli, hgi⟩
  rcases List.getElem?_eq_some_iff.mp hj with ⟨hlj, hgj⟩
  have hlt : dateLtP zeroYMD pb.Date := by
    unfold after at haft
    exact of_decide_eq_true haft
  by_contra hcon
  push_neg at hcon
  rcases Nat.lt_or_ge i j with hij | hij
  · have hr := List.pairwise_iff_get.mp (sortPosts_sorted ps) ⟨i, hli⟩ ⟨j, hlj⟩ hij
    rw [List.get_eq_getElem, List.get_eq_getElem, hgi, hgj, rDesc_iff, hz] at hr
    exact hr hlt
  · have hieq : i = j := by omega
    subst hieq
    have hpb : pa = pb := hgi.symm.trans hgj
    rw [← hpb, hz] at hlt
    have hirr : ¬ dateLtP zeroYMD zeroYMD := by simp [dateLtP, zeroYMD]
    exact hirr hlt

/-- Witness for C9 on a two-post collection with one zero slot. -/
theorem claim_C9_witness :
    ((sortPosts [zeroPost, postB])[1]? = some zeroPost ∧
     (sortPosts [zeroPost, postB])[0]? = some postB ∧
     zeroPost.Date = zeroYMD ∧ after postB.Date zeroYMD = true) ∧
    (0 : Nat) < 1 :=
  ⟨⟨by decide, by decide, by decide, by decide⟩,
   claim_C9.2 [zeroPost, postB] 1 0 zeroPost postB
     (by decide) (by decide) (by decide) (by decide)⟩

theorem prepStep_id (now : YMD) (f : SrcFile)
    (h : (parseDate now (trimPath f.path)).2 = DateErr.ok) :
    prepStep now f = (f, none) := by
  unfold prepStep
  have hn : prepareNewName now f.path = none := by
    simp only [prepareNewName]
    rw [if_pos h]
  rw [hn]

theorem prepare_id (now : YMD) (files : List SrcFile)
    (h : ∀ f ∈ files, (parseDate now (trimPath f.path)).2 = DateErr.ok) :
    prepare now files = (files, []) := by
  have hstep : ∀ f ∈ files, prepStep now f = (f, none) :=
    fun f hf => prepStep_id now f (h f hf)
  have h1 : files.map (fun f => (prepStep now f).1) = files := by
    conv_rhs => rw [← List.map_id files]
    exact List.map_congr_left (fun f hf => by rw [hstep f hf]; rfl)
  have h2 : files.filterMap (fun f => (prepStep now f).2) = [] :=
    List.filterMap_eq_nil_iff.mpr (fun f hf => by rw [hstep f hf])
  unfold prepare
  rw [h1, h2]

/-- Claim C8: on a source directory in which every file already carries a
parseable date, a run performs no renames and leaves the directory unchanged,
and a second run over the resulting directory — at any later wall-clock time —
produces byte-identical output files (pages, index and feed). -/
theorem claim_C8 (now now2 : YMD) (env : Env) (files : List SrcFile)
    (h : ∀ f ∈ files, (parseDate now (trimPath f.path)).2 = DateErr.ok) :
    (prepare now files).2 = [] ∧
    (mainRun now env files).1 = files ∧
    mainRun now2 env ((mainRun now env files).1) =
      (files, (mainRun now env files).2) := by
  have hp := prepare_id now files h
  have hfst : (mainRun now env files).1 = files := by
    unfold mainRun
    rw [hp]
  have h2 : ∀ f ∈ files, (parseDate now2 (trimPath f.path)).2 = DateErr.ok := by
    intro f hf
    rw [parseDate_congr now now2 (trimPath f.path) (h f hf)]
    exact h f hf
  have hp2 := prepare_id now2 files h2
  have hps : ∀ f ∈ files, parseSourceFile env.md now2 f.path f.content
      = parseSourceFile env.md now f.path f.content := by
    intro f hf
    simp only [parseSourceFile]
    rw [parseDate_congr now now2 (trimPath f.path) (h f hf)]
  have hwp : ∀ f ∈ files, writePost now2 env f = writePost now env f := by
    intro f hf
    unfold writePost
    rw [hps f hf]
  have hbp : buildPosts now2 env files = buildPosts now env files := by
    unfold buildPosts
    exact loopPosts_congr now now2 env files.enum
      (List.replicate files.length zeroPost)
      (fun p hmem => hwp p.2 (snd_mem_enumFrom files 0 p hmem))
  have hpg : pagesOf now2 env files = pagesOf now env files := by
    unfold pagesOf
    exact filterMapCongr _ _ files (fun f hf => by rw [hwp f hf])
  refine ⟨by rw [hp], hfst, ?_⟩
  rw [hfst]
  unfold mainRun
  rw [hp, hp2]
  dsimp only
  rw [hbp, hpg]

/-- Witness for C8 on a one-file, all-dated source directory, with the second
run at a different wall-clock date. -/
theorem claim_C8_witness :
    (∀ f ∈ [fileA], (parseDate ⟨2026, 10, 11⟩ (trimPath f.path)).2 = DateErr.ok) ∧
    ((prepare ⟨2026, 10, 11⟩ [fileA]).2 = [] ∧
     (mainRun ⟨2026, 10, 11⟩ envA [fileA]).1 = [fileA] ∧
     mainRun ⟨2027, 1, 2⟩ envA ((mainRun ⟨2026, 10, 11⟩ envA [fileA]).1) =
       ([fileA], (mainRun ⟨2026, 10, 11⟩ envA [fileA]).2)) :=
  ⟨by decide,
   claim_C8 ⟨2026, 10, 11⟩ ⟨2027, 1, 2⟩ envA [fileA] (by decide)⟩
